import Mathlib

/-!
Verification of the `kubernetes_labels` resource lifecycle.

The repository contains two variants of the same resource implementation:
* variant A (`src/unnamed/part_000`): server-side apply patch, and a read that
  strips label keys that are neither configured nor attributed to this tool's
  field manager in the object's managed-fields metadata;
* variant B (`src/kubernetes/resource_kubernetes_labels.go`): RFC 6902 JSON
  patch computed by `diffStringMap`, and a read that stores the remote label
  map unfiltered.

Label maps are embedded as association lists of strings.  External
collaborators (discovery client, dynamic client, the API server's patch
semantics) are modelled through an explicit environment, with each fallible
call represented as an `Except String` value so that error strings can be
tracked verbatim through the lifecycle functions.
-/

set_option linter.unusedVariables false

/-- A Go `map[string]string` of labels, embedded as an association list. -/
abbrev LabelMap := List (String × String)

/-- Lookup in an association list (Go map indexing `m[k]`). -/
def lookupL : LabelMap → String → Option String
  | [], _ => none
  | (k, v) :: rest, key => if k = key then some v else lookupL rest key

/-- The key set of a label map. -/
def keysL (m : LabelMap) : List String := m.map Prod.fst

/-- JSON values, restricted to the shapes the managed-fields payloads use. -/
inductive JVal : Type where
  | s : String → JVal
  | obj : List (String × JVal) → JVal

/-- Lookup in a JSON object (Go map indexing on `map[string]interface\x7b\x7d`). -/
def lookupJ : List (String × JVal) → String → Option JVal
  | [], _ => none
  | (k, v) :: rest, key => if k = key then some v else lookupJ rest key

/-- One entry of `metadata.managedFields`.  `fieldsV1` is the result of
`json.Unmarshal` on the entry's raw `FieldsV1` payload: `.error s` models an
unmarshal failure with message `s`, `.ok mm` a successfully decoded top-level
JSON object. -/
structure ManagedFieldsEntry : Type where
  manager : String
  fieldsV1 : Except String (List (String × JVal))

/-- Outcome of running a Go function: normal return, returned error
(diagnostic), or a runtime panic. -/
inductive GoResult (α : Type) : Type where
  | ok : α → GoResult α
  | err : String → GoResult α
  | panic : GoResult α
  deriving DecidableEq

/-- Loop body of `getManagedLabels` (src/unnamed/part_000 lines 148-165).
The accumulator starts as Go's nil map (`none`); entries whose manager does
not match are skipped; an unmarshal failure is returned as an error; the
unchecked type assertion on `mm["f:metadata"]` panics when the key is absent
or not an object; a well-formed `f:labels` object overwrites the accumulator,
so the last matching entry wins. -/
def getManagedLabelsLoop (manager : String) :
    List ManagedFieldsEntry → Option (List (String × JVal)) →
      GoResult (Option (List (String × JVal)))
  | [], labels => .ok labels
  | e :: rest, labels =>
    if e.manager ≠ manager then
      getManagedLabelsLoop manager rest labels
    else
      match e.fieldsV1 with
      | .error s => .err s
      | .ok mm =>
        match lookupJ mm "f:metadata" with
        | some (.obj metadata) =>
          match lookupJ metadata "f:labels" with
          | some (.obj l) => getManagedLabelsLoop manager rest (some l)
          | _ => getManagedLabelsLoop manager rest labels
        | _ => .panic

/-- `getManagedLabels` reads the field manager metadata to discover which
fields this tool is managing (src/unnamed/part_000 lines 148-165). -/
def getManagedLabels (managedFields : List ManagedFieldsEntry) (manager : String) :
    GoResult (Option (List (String × JVal))) :=
  getManagedLabelsLoop manager managedFields none

/-- Modelled from the spec: the fixed field-manager identity string used in
patch options and managed-fields filtering.  Its definition is not under
src/; no claim depends on the concrete value, only on it being fixed. -/
def defaultFieldManagerName : String := "Terraform"

/-- An RFC 6902 JSON-patch operation over string values. -/
inductive PatchOp : Type where
  | add : String → String → PatchOp
  | remove : String → PatchOp
  | replace : String → String → PatchOp
  deriving DecidableEq

/-- The path component of a patch operation. -/
def PatchOp.path : PatchOp → String
  | .add p _ => p
  | .remove p => p
  | .replace p _ => p

/-- Modelled from the spec: `diffStringMap` is code of this repository that is
not under src/ (only its caller `resourceKubernetesLabelsUpdate` is).  Per the
spec it computes "a minimal JSON-patch add/remove/replace sequence computed
from old vs. new label maps", a "strict add/remove/replace set between old
and new maps", with operation paths formed from the given path pre-string and
the label key. -/
def diffStringMap (pre : String) (oldV newV : LabelMap) : List PatchOp :=
  (oldV.filterMap fun kv =>
    match lookupL newV kv.1 with
    | none => some (PatchOp.remove (pre ++ kv.1))
    | some nv => if nv = kv.2 then none else some (PatchOp.replace (pre ++ kv.1) nv)) ++
  (newV.filterMap fun kv =>
    match lookupL oldV kv.1 with
    | some _ => none
    | none => some (PatchOp.add (pre ++ kv.1) kv.2))

/-- Drop the first `n` characters of a string. -/
def strDrop (s : String) (n : Nat) : String := ⟨s.data.drop n⟩

/-- Modelled from the spec: the API server's application of a single RFC 6902
operation to the labels map sitting at path pre-string `pre` ("an explicit
sequence of add/remove/replace operations describing a delta between two JSON
documents").  `remove` deletes the member at the path, `replace` rewrites its
value, `add` inserts (or overwrites) the member named by the path. -/
def applyOp1 (pre : String) (m : LabelMap) : PatchOp → LabelMap
  | .remove p => m.filter fun kv => !(pre ++ kv.1 == p)
  | .replace p v => m.map fun kv => if pre ++ kv.1 = p then (kv.1, v) else kv
  | .add p v => (m.filter fun kv => !(pre ++ kv.1 == p)) ++ [(strDrop p pre.length, v)]

/-- Modelled from the spec: sequential application of a JSON patch to the
labels map at path pre-string `pre`. -/
def applyPatchOps (pre : String) : LabelMap → List PatchOp → LabelMap
  | m, [] => m
  | m, op :: rest => applyPatchOps pre (applyOp1 pre m op) rest

/-- Modelled from the spec: how the server-side-apply merge treats one entry
of the remote label map.  A key named in the applied configuration takes the
applied value; a key not named there is removed when owned by this manager
and kept otherwise. -/
def ssaMergeOp (owned : List String) (applied : LabelMap) (kv : String × String) :
    Option (String × String) :=
  match lookupL applied kv.1 with
  | some v => some (kv.1, v)
  | none => if owned.contains kv.1 then none else some kv

/-- Modelled from the spec: the API server's server-side-apply merge of a
labels map ("a patch mode where the API server merges the supplied object by
field ownership rather than the client computing a diff").  `owned` is the
set of label keys currently attributed to this tool's field manager.  Remote
entries are merged by `ssaMergeOp`; applied keys absent from the remote map
are added. -/
def serverSideApplyLabels (owned : List String) (applied remote : LabelMap) : LabelMap :=
  remote.filterMap (ssaMergeOp owned applied) ++
    (applied.filter fun kv => (lookupL remote kv.1).isNone)

/-- The group/version pair produced by `k8sschema.ParseGroupVersion`. -/
structure GroupVersion : Type where
  group : String
  version : String
  deriving DecidableEq

/-- The REST mapping returned by `restMapper.RESTMapping`: the claims only
depend on its scope (namespaced vs cluster-scoped). -/
structure RESTMapping : Type where
  namespaced : Bool
  deriving DecidableEq

/-- The remote target object as the dynamic client sees it: its label map,
its `metadata.managedFields` entries, and (server bookkeeping, variant A) the
set of label keys currently owned by this tool's field manager. -/
structure RemoteObject : Type where
  labels : LabelMap
  managedFields : List ManagedFieldsEntry
  ownedLabelKeys : List String

/-- The `schema.ResourceData` attributes this resource declares.  `id` is the
management record identifier (`d.Id()` / `d.SetId`), `labels` the current
value of the labels attribute (`d.Get("labels")`), `oldLabels` the
previously-applied value so that `d.GetChange("labels")` returns
`(oldLabels, labels)`, and `force` the optional force flag of variant A. -/
structure ResourceData : Type where
  id : String
  apiVersion : String
  kind : String
  name : String
  ns : String
  labels : LabelMap
  oldLabels : LabelMap
  force : Bool

/-- The external collaborators of one lifecycle invocation.  Each fallible
remote call is modelled by an `Except String` value carrying the verbatim
error message of the Go call; `getErr`/`patchErr` inject failures for the
dynamic client's Get and Patch calls. -/
structure Env : Type where
  dynamicClient : Except String Unit
  discoveryClient : Except String Unit
  apiGroupResources : Except String Unit
  parseGroupVersion : String → Except String GroupVersion
  restMapping : GroupVersion → String → Except String RESTMapping
  marshalJSON : Except String Unit
  getErr : Option String
  patchErr : Option String

/-- What a successful read stores: the namespace the Get request targeted
(`none` for a cluster-scoped resource) and the label map written to state
with `d.Set("labels", ...)`. -/
structure ReadOutcome : Type where
  reqNamespace : Option String
  stored : LabelMap
  deriving DecidableEq

/-- Observables of a successful variant-B update: the namespace targeted by
the Patch request, the JSON-patch operations sent, and the outcome of the
final re-read. -/
structure UpdateOutcomeB : Type where
  reqNamespace : Option String
  ops : List PatchOp
  readOut : ReadOutcome
  deriving DecidableEq

/-- Observables of a successful variant-A update: the namespace targeted by
the Patch request, the labels map embedded in the apply-patch body, the force
flag sent, and the outcome of the final re-read. -/
structure UpdateOutcomeA : Type where
  reqNamespace : Option String
  appliedLabels : LabelMap
  force : Bool
  readOut : ReadOutcome
  deriving DecidableEq

/-- Modelled from the spec: `buildIdWithVersionKind` is not under src/.  The
identifier encodes the immutable target descriptor
(apiVersion, kind, name, namespace); no claim depends on the exact format. -/
def buildIdWithVersionKind (name ns apiVersion kind : String) : String :=
  apiVersion ++ "," ++ kind ++ "," ++ ns ++ "/" ++ name

/-- Modelled from the spec: the managed-fields entry the API server records
for a manager after it applies a labels map with the given keys (per-field
attribution under `f:metadata` / `f:labels`, one `f:`-prefixed member per
owned label key). -/
def mkManagedFieldsEntry (manager : String) (ks : List String) : ManagedFieldsEntry :=
  { manager := manager,
    fieldsV1 := .ok [("f:metadata",
      .obj [("f:labels", .obj (ks.map fun k => ("f:" ++ k, JVal.obj [])))])] }

/-- Membership test in the (possibly nil) managed-labels map returned by
`getManagedLabels`: Go's `_, managed := managedLabels[key]`. -/
def hasJKey (ml : Option (List (String × JVal))) (key : String) : Bool :=
  match ml with
  | none => false
  | some l => (lookupJ l key).isSome

namespace VariantB

/-- `resourceKubernetesLabelsRead` of variant B
(src/kubernetes/resource_kubernetes_labels.go lines 74-122): resolve clients,
parse the group/version, resolve the REST mapping, default the namespace for
a namespace-scoped kind, Get the object and store its raw label map.  The
error of `restmapper.GetAPIGroupResources` is dropped by the source (the
`err` variable is overwritten by the `ParseGroupVersion` assignment before
being checked), which the `let _agr :=` line mirrors. -/
def resourceKubernetesLabelsRead (env : Env) (c : RemoteObject) (d : ResourceData) :
    ResourceData × GoResult ReadOutcome :=
  match env.dynamicClient with
  | .error e => (d, .err e)
  | .ok _ =>
    match env.discoveryClient with
    | .error e => (d, .err e)
    | .ok _ =>
      let _agr := env.apiGroupResources
      match env.parseGroupVersion d.apiVersion with
      | .error e => (d, .err e)
      | .ok gv =>
        match env.restMapping gv d.kind with
        | .error e => (d, .err e)
        | .ok mapping =>
          let nsOpt : Option String :=
            if mapping.namespaced then some (if d.ns = "" then "default" else d.ns)
            else none
          match env.getErr with
          | some e => (d, .err e)
          | none =>
            let res := c
            ({ d with labels := res.labels }, .ok ⟨nsOpt, res.labels⟩)

/-- `resourceKubernetesLabelsUpdate` of variant B
(src/kubernetes/resource_kubernetes_labels.go lines 124-191): after the same
client/mapping resolution as read, take `(old, new) = d.GetChange("labels")`,
substitute an empty new map when the identifier is empty (deletion), build
the JSON patch with `diffStringMap` over path pre-string
"/metadata/labels/", marshal it, issue the Patch, and finish by re-invoking
read against the patched object. -/
def resourceKubernetesLabelsUpdate (env : Env) (c : RemoteObject) (d : ResourceData) :
    ResourceData × RemoteObject × GoResult UpdateOutcomeB :=
  match env.dynamicClient with
  | .error e => (d, c, .err e)
  | .ok _ =>
    match env.discoveryClient with
    | .error e => (d, c, .err e)
    | .ok _ =>
      let _agr := env.apiGroupResources
      match env.parseGroupVersion d.apiVersion with
      | .error e => (d, c, .err e)
      | .ok gv =>
        match env.restMapping gv d.kind with
        | .error e => (d, c, .err e)
        | .ok mapping =>
          let nsOpt : Option String :=
            if mapping.namespaced then some (if d.ns = "" then "default" else d.ns)
            else none
          let old := d.oldLabels
          let new := if d.id = "" then [] else d.labels
          let patch := diffStringMap "/metadata/labels/" old new
          match env.marshalJSON with
          | .error e => (d, c, .err e)
          | .ok _ =>
            match env.patchErr with
            | some e => (d, c, .err e)
            | none =>
              let c2 : RemoteObject :=
                { c with labels := applyPatchOps "/metadata/labels/" c.labels patch }
              match resourceKubernetesLabelsRead env c2 d with
              | (d2, .ok ro) => (d2, c2, .ok ⟨nsOpt, patch, ro⟩)
              | (d2, .err e) => (d2, c2, .err e)
              | (d2, .panic) => (d2, c2, .panic)

/-- `resourceKubernetesLabelsDelete` of variant B
(src/kubernetes/resource_kubernetes_labels.go lines 193-196): clear the
identifier with `d.SetId("")` and re-invoke update. -/
def resourceKubernetesLabelsDelete (env : Env) (c : RemoteObject) (d : ResourceData) :
    ResourceData × RemoteObject × GoResult UpdateOutcomeB :=
  resourceKubernetesLabelsUpdate env c { d with id := "" }

/-- `resourceKubernetesLabelsCreate` of variant B
(src/kubernetes/resource_kubernetes_labels.go lines 66-72): set the
identifier from the target descriptor and re-invoke update. -/
def resourceKubernetesLabelsCreate (env : Env) (c : RemoteObject) (d : ResourceData) :
    ResourceData × RemoteObject × GoResult UpdateOutcomeB :=
  resourceKubernetesLabelsUpdate env c
    { d with id := buildIdWithVersionKind d.name d.ns d.apiVersion d.kind }

end VariantB

namespace VariantA

/-- `resourceKubernetesLabelsRead` of variant A (src/unnamed/part_000 lines
81-145): after the same client/mapping resolution and namespace defaulting,
Get the object, extract the managed labels for `defaultFieldManagerName`
with `getManagedLabels` (propagating its error, or its panic), and store the
remote label map with every key that is neither attributed to this manager
(under the `f:`-prefixed name) nor present in the configured labels deleted. -/
def resourceKubernetesLabelsRead (env : Env) (c : RemoteObject) (d : ResourceData) :
    ResourceData × GoResult ReadOutcome :=
  match env.dynamicClient with
  | .error e => (d, .err e)
  | .ok _ =>
    match env.discoveryClient with
    | .error e => (d, .err e)
    | .ok _ =>
      let _agr := env.apiGroupResources
      match env.parseGroupVersion d.apiVersion with
      | .error e => (d, .err e)
      | .ok gv =>
        match env.restMapping gv d.kind with
        | .error e => (d, .err e)
        | .ok mapping =>
          let nsOpt : Option String :=
            if mapping.namespaced then some (if d.ns = "" then "default" else d.ns)
            else none
          match env.getErr with
          | some e => (d, .err e)
          | none =>
            let res := c
            let configuredLabels := d.labels
            match getManagedLabels res.managedFields defaultFieldManagerName with
            | .err e => (d, .err e)
            | .panic => (d, .panic)
            | .ok managedLabels =>
              let labels := res.labels.filter fun kv =>
                hasJKey managedLabels ("f:" ++ kv.1) || (lookupL configuredLabels kv.1).isSome
              ({ d with labels := labels }, .ok ⟨nsOpt, labels⟩)

/-- `resourceKubernetesLabelsUpdate` of variant A (src/unnamed/part_000 lines
167-248): after client/mapping resolution and namespace defaulting, take the
configured labels (an empty map when the identifier is empty, i.e. on
delete), build the apply-patch body carrying exactly that labels map, marshal
it, issue the Patch with `types.ApplyPatchType`, the fixed field manager and
the force flag, and finish by re-invoking read.  The server's merge is the
spec-modelled `serverSideApplyLabels`; afterwards the server attributes to
this manager exactly the applied keys, replacing its previous entry. -/
def resourceKubernetesLabelsUpdate (env : Env) (c : RemoteObject) (d : ResourceData) :
    ResourceData × RemoteObject × GoResult UpdateOutcomeA :=
  match env.dynamicClient with
  | .error e => (d, c, .err e)
  | .ok _ =>
    match env.discoveryClient with
    | .error e => (d, c, .err e)
    | .ok _ =>
      let _agr := env.apiGroupResources
      match env.parseGroupVersion d.apiVersion with
      | .error e => (d, c, .err e)
      | .ok gv =>
        match env.restMapping gv d.kind with
        | .error e => (d, c, .err e)
        | .ok mapping =>
          let namespacedResource := mapping.namespaced
          let nsOpt : Option String :=
            if namespacedResource then some (if d.ns = "" then "default" else d.ns)
            else none
          let labels := if d.id = "" then [] else d.labels
          match env.marshalJSON with
          | .error e => (d, c, .err e)
          | .ok _ =>
            match env.patchErr with
            | some e => (d, c, .err e)
            | none =>
              let c2 : RemoteObject :=
                { labels := serverSideApplyLabels c.ownedLabelKeys labels c.labels,
                  ownedLabelKeys := keysL labels,
                  managedFields :=
                    (c.managedFields.filter fun e => !(e.manager == defaultFieldManagerName)) ++
                      [mkManagedFieldsEntry defaultFieldManagerName (keysL labels)] }
              match resourceKubernetesLabelsRead env c2 d with
              | (d2, .ok ro) => (d2, c2, .ok ⟨nsOpt, labels, d.force, ro⟩)
              | (d2, .err e) => (d2, c2, .err e)
              | (d2, .panic) => (d2, c2, .panic)

/-- `resourceKubernetesLabelsDelete` of variant A (src/unnamed/part_000 lines
250-253): clear the identifier with `d.SetId("")` and re-invoke update. -/
def resourceKubernetesLabelsDelete (env : Env) (c : RemoteObject) (d : ResourceData) :
    ResourceData × RemoteObject × GoResult UpdateOutcomeA :=
  resourceKubernetesLabelsUpdate env c { d with id := "" }

/-- `resourceKubernetesLabelsCreate` of variant A (src/unnamed/part_000 lines
73-79): set the identifier from the target descriptor and re-invoke update. -/
def resourceKubernetesLabelsCreate (env : Env) (c : RemoteObject) (d : ResourceData) :
    ResourceData × RemoteObject × GoResult UpdateOutcomeA :=
  resourceKubernetesLabelsUpdate env c
    { d with id := buildIdWithVersionKind d.name d.ns d.apiVersion d.kind }

end VariantA

/-- The pointwise effect of a single JSON-patch operation on the value stored
at label key `k` (path pre-string `pre`). -/
def opEffect (pre k : String) (op : PatchOp) (o : Option String) : Option String :=
  match op with
  | .remove p => if p = pre ++ k then none else o
  | .replace p v => if p = pre ++ k then (match o with | some _ => some v | none => none) else o
  | .add p v => if p = pre ++ k then some v else o

/-- The pointwise effect of a JSON-patch sequence on the value at key `k`. -/
def opsFold (pre k : String) : List PatchOp → Option String → Option String
  | [], o => o
  | op :: rest, o => opsFold pre k rest (opEffect pre k op o)

theorem strAppend_cancel {a b c : String} (h : a ++ b = a ++ c) : b = c := by
  have hd := congrArg String.data h
  rw [String.data_append, String.data_append] at hd
  exact String.ext (List.append_cancel_left hd)

theorem strAppend_inj (a : String) {b c : String} : a ++ b = a ++ c ↔ b = c :=
  ⟨strAppend_cancel, fun h => by rw [h]⟩

theorem strDrop_append (a b : String) : strDrop (a ++ b) a.length = b := by
  apply String.ext
  show (a ++ b).data.drop a.length = b.data
  rw [String.data_append]
  exact List.drop_left a.data b.data

theorem lookupL_append (xs ys : LabelMap) (k : String) :
    lookupL (xs ++ ys) k =
      match lookupL xs k with
      | some v => some v
      | none => lookupL ys k := by
  induction xs with
  | nil => rfl
  | cons kv rest ih =>
    obtain ⟨k1, v1⟩ := kv
    by_cases h : k1 = k
    · simp [lookupL, h]
    · simp only [List.cons_append, lookupL, if_neg h]
      exact ih

theorem lookupL_eq_some_mem {m : LabelMap} {k v : String}
    (h : lookupL m k = some v) : (k, v) ∈ m := by
  induction m with
  | nil => simp [lookupL] at h
  | cons kv rest ih =>
    obtain ⟨k1, v1⟩ := kv
    simp only [lookupL] at h
    by_cases hk : k1 = k
    · rw [if_pos hk] at h
      obtain rfl := Option.some.inj h
      subst hk
      exact List.mem_cons_self _ _
    · rw [if_neg hk] at h
      exact List.mem_cons_of_mem _ (ih h)

theorem mem_keysL {m : LabelMap} {kv : String × String} (h : kv ∈ m) : kv.1 ∈ keysL m :=
  List.mem_map_of_mem Prod.fst h

theorem lookupL_isSome_of_mem {m : LabelMap} {kv : String × String} (h : kv ∈ m) :
    (lookupL m kv.1).isSome := by
  induction m with
  | nil => simp at h
  | cons kv1 rest ih =>
    obtain ⟨k1, v1⟩ := kv1
    rcases List.mem_cons.mp h with h1 | h1
    · subst h1
      simp [lookupL]
    · rw [lookupL]
      by_cases hk : k1 = kv.1
      · simp [if_pos hk]
      · rw [if_neg hk]
        exact ih h1

theorem lookupL_of_mem_nodup {m : LabelMap} (hN : (keysL m).Nodup) {k v : String}
    (h : (k, v) ∈ m) : lookupL m k = some v := by
  induction m with
  | nil => simp at h
  | cons kv rest ih =>
    obtain ⟨k1, v1⟩ := kv
    rw [keysL, List.map_cons, List.nodup_cons] at hN
    rcases List.mem_cons.mp h with h1 | h1
    · have hk1 : k = k1 := congrArg Prod.fst h1
      have hv1 : v = v1 := congrArg Prod.snd h1
      subst hk1
      subst hv1
      simp [lookupL]
    · have hk : k1 ≠ k := by
        intro hkk
        apply hN.1
        rw [hkk]
        show k ∈ List.map Prod.fst rest
        exact List.mem_map_of_mem Prod.fst h1
      simp only [lookupL, if_neg hk]
      exact ih hN.2 h1

theorem lookupL_eq_none_notMem {m : LabelMap} {k : String}
    (h : lookupL m k = none) : k ∉ keysL m := by
  intro hk
  rw [keysL] at hk
  obtain ⟨kv, hkv, hfst⟩ := List.mem_map.mp hk
  have := lookupL_isSome_of_mem hkv
  rw [hfst, h] at this
  simp at this

theorem lookupL_filter_key (p : String → Bool) (m : LabelMap) (k : String) :
    lookupL (m.filter fun kv => p kv.1) k = if p k then lookupL m k else none := by
  induction m with
  | nil => simp [lookupL]
  | cons kv rest ih =>
    obtain ⟨k1, v1⟩ := kv
    by_cases hk : k1 = k
    · subst hk
      by_cases hp : p k1
      · simp [List.filter, lookupL, hp, ih]
      · simp [List.filter, lookupL, hp, ih, Bool.of_not_eq_true hp]
    · by_cases hp : p k1 <;>
        simp [List.filter, lookupL, hp, hk, ih]

theorem lookupL_replaceMap (pre pathStr v : String) (m : LabelMap) (k : String) :
    lookupL (m.map fun kv => if pre ++ kv.1 = pathStr then (kv.1, v) else kv) k =
      if pre ++ k = pathStr then
        (match lookupL m k with | some _ => some v | none => none)
      else lookupL m k := by
  induction m with
  | nil => simp [lookupL]
  | cons kv rest ih =>
    obtain ⟨k1, v1⟩ := kv
    rw [List.map_cons]
    by_cases hp : pre ++ k1 = pathStr
    · rw [if_pos hp]
      by_cases hk : k1 = k
      · subst hk
        simp [lookupL, hp]
      · simp only [lookupL, if_neg hk]
        exact ih
    · rw [if_neg hp]
      by_cases hk : k1 = k
      · subst hk
        simp [lookupL, hp]
      · simp only [lookupL, if_neg hk]
        exact ih

theorem applyOp1_lookup (pre : String) (m : LabelMap) (op : PatchOp) (k : String)
    (hwf : ∃ k0, op.path = pre ++ k0) :
    lookupL (applyOp1 pre m op) k = opEffect pre k op (lookupL m k) := by
  obtain ⟨k0, hk0⟩ := hwf
  cases op with
  | remove p =>
    simp only [PatchOp.path] at hk0
    subst hk0
    show lookupL (m.filter fun kv => !(pre ++ kv.1 == pre ++ k0)) k = _
    rw [lookupL_filter_key (fun x => !(pre ++ x == pre ++ k0)) m k]
    simp only [opEffect]
    by_cases hkk : k0 = k
    · subst hkk
      simp
    · have h1 : ¬ (pre ++ k = pre ++ k0) := fun hc => hkk ((strAppend_cancel hc).symm)
      have h2 : ¬ (pre ++ k0 = pre ++ k) := fun hc => hkk (strAppend_cancel hc)
      simp [h1, h2]
  | replace p v =>
    simp only [PatchOp.path] at hk0
    subst hk0
    show lookupL (m.map fun kv => if pre ++ kv.1 = pre ++ k0 then (kv.1, v) else kv) k = _
    rw [lookupL_replaceMap pre (pre ++ k0) v m k]
    simp only [opEffect]
    by_cases hkk : k0 = k
    · subst hkk
      simp
    · have h1 : ¬ (pre ++ k = pre ++ k0) := fun hc => hkk ((strAppend_cancel hc).symm)
      have h2 : ¬ (pre ++ k0 = pre ++ k) := fun hc => hkk (strAppend_cancel hc)
      simp [h1, h2]
  | add p v =>
    simp only [PatchOp.path] at hk0
    subst hk0
    show lookupL ((m.filter fun kv => !(pre ++ kv.1 == pre ++ k0)) ++
        [(strDrop (pre ++ k0) pre.length, v)]) k = _
    rw [lookupL_append, lookupL_filter_key (fun x => !(pre ++ x == pre ++ k0)) m k,
      strDrop_append]
    simp only [opEffect]
    by_cases hkk : k0 = k
    · subst hkk
      simp [lookupL]
    · have h1 : ¬ (pre ++ k = pre ++ k0) := fun hc => hkk ((strAppend_cancel hc).symm)
      have h2 : ¬ (pre ++ k0 = pre ++ k) := fun hc => hkk (strAppend_cancel hc)
      simp [h1, h2, lookupL, hkk]
      cases lookupL m k <;> simp [lookupL, hkk]

theorem applyPatchOps_lookup (pre : String) (ops : List PatchOp) (m : LabelMap) (k : String)
    (hwf : ∀ op ∈ ops, ∃ k0, op.path = pre ++ k0) :
    lookupL (applyPatchOps pre m ops) k = opsFold pre k ops (lookupL m k) := by
  induction ops generalizing m with
  | nil => rfl
  | cons op rest ih =>
    show lookupL (applyPatchOps pre (applyOp1 pre m op) rest) k = _
    rw [ih (applyOp1 pre m op) fun o ho => hwf o (List.mem_cons_of_mem _ ho),
      applyOp1_lookup pre m op k (hwf op (List.mem_cons_self _ _))]
    rfl

theorem opsFold_id (pre k : String) (ops : List PatchOp) (o : Option String)
    (h : ∀ op ∈ ops, op.path ≠ pre ++ k) :
    opsFold pre k ops o = o := by
  induction ops generalizing o with
  | nil => rfl
  | cons op rest ih =>
    have hop : op.path ≠ pre ++ k := h op (List.mem_cons_self _ _)
    have heff : opEffect pre k op o = o := by
      cases op with
      | remove p => simp only [PatchOp.path] at hop; simp [opEffect, hop]
      | replace p v => simp only [PatchOp.path] at hop; simp [opEffect, hop]
      | add p v => simp only [PatchOp.path] at hop; simp [opEffect, hop]
    show opsFold pre k rest (opEffect pre k op o) = o
    rw [heff]
    exact ih o fun o2 ho2 => h o2 (List.mem_cons_of_mem _ ho2)

theorem opsFold_append (pre k : String) (xs ys : List PatchOp) (o : Option String) :
    opsFold pre k (xs ++ ys) o = opsFold pre k ys (opsFold pre k xs o) := by
  induction xs generalizing o with
  | nil => rfl
  | cons op rest ih =>
    simp only [List.cons_append, opsFold]
    exact ih (opEffect pre k op o)

/-- The operation `diffStringMap` emits for an entry of the old map. -/
def diffOldOp (pre : String) (newV : LabelMap) (kv : String × String) : Option PatchOp :=
  match lookupL newV kv.1 with
  | none => some (PatchOp.remove (pre ++ kv.1))
  | some nv => if nv = kv.2 then none else some (PatchOp.replace (pre ++ kv.1) nv)

/-- The operation `diffStringMap` emits for an entry of the new map. -/
def diffNewOp (pre : String) (oldV : LabelMap) (kv : String × String) : Option PatchOp :=
  match lookupL oldV kv.1 with
  | some _ => none
  | none => some (PatchOp.add (pre ++ kv.1) kv.2)

theorem diffStringMap_eq_parts (pre : String) (oldV newV : LabelMap) :
    diffStringMap pre oldV newV =
      oldV.filterMap (diffOldOp pre newV) ++ newV.filterMap (diffNewOp pre oldV) := rfl

theorem diffOldOp_none (pre : String) (newV : LabelMap) (k1 v1 : String)
    (hl : lookupL newV k1 = none) :
    diffOldOp pre newV (k1, v1) = some (PatchOp.remove (pre ++ k1)) := by
  simp [diffOldOp, hl]

theorem diffOldOp_same (pre : String) (newV : LabelMap) (k1 v1 nv : String)
    (hl : lookupL newV k1 = some nv) (hv : nv = v1) :
    diffOldOp pre newV (k1, v1) = none := by
  simp [diffOldOp, hl, hv]

theorem diffOldOp_repl (pre : String) (newV : LabelMap) (k1 v1 nv : String)
    (hl : lookupL newV k1 = some nv) (hv : ¬ nv = v1) :
    diffOldOp pre newV (k1, v1) = some (PatchOp.replace (pre ++ k1) nv) := by
  simp [diffOldOp, hl, hv]

theorem diffNewOp_skip (pre : String) (oldV : LabelMap) (k1 v1 v0 : String)
    (hl : lookupL oldV k1 = some v0) :
    diffNewOp pre oldV (k1, v1) = none := by
  simp [diffNewOp, hl]

theorem diffNewOp_add (pre : String) (oldV : LabelMap) (k1 v1 : String)
    (hl : lookupL oldV k1 = none) :
    diffNewOp pre oldV (k1, v1) = some (PatchOp.add (pre ++ k1) v1) := by
  simp [diffNewOp, hl]

theorem diffOld_path (pre : String) (newV oldV : LabelMap) :
    ∀ op ∈ oldV.filterMap (diffOldOp pre newV), ∃ kv ∈ oldV, op.path = pre ++ kv.1 := by
  intro op hop
  obtain ⟨kv, hkv, heq⟩ := List.mem_filterMap.mp hop
  refine ⟨kv, hkv, ?_⟩
  obtain ⟨k1, v1⟩ := kv
  cases hl : lookupL newV k1 with
  | none =>
    rw [diffOldOp_none pre newV k1 v1 hl] at heq
    obtain rfl := Option.some.inj heq
    rfl
  | some nv =>
    by_cases hv : nv = v1
    · rw [diffOldOp_same pre newV k1 v1 nv hl hv] at heq
      exact absurd heq (by simp)
    · rw [diffOldOp_repl pre newV k1 v1 nv hl hv] at heq
      obtain rfl := Option.some.inj heq
      rfl

theorem diffNew_path (pre : String) (oldV newV : LabelMap) :
    ∀ op ∈ newV.filterMap (diffNewOp pre oldV), ∃ kv ∈ newV, op.path = pre ++ kv.1 := by
  intro op hop
  obtain ⟨kv, hkv, heq⟩ := List.mem_filterMap.mp hop
  refine ⟨kv, hkv, ?_⟩
  obtain ⟨k1, v1⟩ := kv
  cases hl : lookupL oldV k1 with
  | none =>
    rw [diffNewOp_add pre oldV k1 v1 hl] at heq
    obtain rfl := Option.some.inj heq
    rfl
  | some v0 =>
    rw [diffNewOp_skip pre oldV k1 v1 v0 hl] at heq
    exact absurd heq (by simp)

theorem diffOld_ops_path_ne (pre : String) (newV rest : LabelMap) (k : String)
    (hk : k ∉ keysL rest) :
    ∀ op ∈ rest.filterMap (diffOldOp pre newV), op.path ≠ pre ++ k := by
  intro op hop hpath
  obtain ⟨kv, hkv, hp⟩ := diffOld_path pre newV rest op hop
  rw [hp] at hpath
  exact hk ((strAppend_cancel hpath) ▸ mem_keysL hkv)

theorem diffNew_ops_path_ne (pre : String) (oldV rest : LabelMap) (k : String)
    (hk : k ∉ keysL rest) :
    ∀ op ∈ rest.filterMap (diffNewOp pre oldV), op.path ≠ pre ++ k := by
  intro op hop hpath
  obtain ⟨kv, hkv, hp⟩ := diffNew_path pre oldV rest op hop
  rw [hp] at hpath
  exact hk ((strAppend_cancel hpath) ▸ mem_keysL hkv)

theorem diffStringMap_wf (pre : String) (oldV newV : LabelMap) :
    ∀ op ∈ diffStringMap pre oldV newV, ∃ k0, op.path = pre ++ k0 := by
  intro op hop
  rw [diffStringMap_eq_parts] at hop
  rcases List.mem_append.mp hop with h1 | h1
  · obtain ⟨kv, _, hp⟩ := diffOld_path pre newV oldV op h1
    exact ⟨kv.1, hp⟩
  · obtain ⟨kv, _, hp⟩ := diffNew_path pre oldV newV op h1
    exact ⟨kv.1, hp⟩

theorem opsFold_diffOld (pre : String) (newV : LabelMap) (k : String) :
    ∀ (oldV : LabelMap), (keysL oldV).Nodup → ∀ (o : Option String),
    opsFold pre k (oldV.filterMap (diffOldOp pre newV)) o =
      match lookupL oldV k with
      | none => o
      | some ov =>
        match lookupL newV k with
        | none => none
        | some nv =>
          if nv = ov then o else (match o with | some _ => some nv | none => none) := by
  intro oldV
  induction oldV with
  | nil => intro _ o; rfl
  | cons kv rest ih =>
    intro hN o
    obtain ⟨k1, v1⟩ := kv
    rw [keysL, List.map_cons, List.nodup_cons] at hN
    have hrest := ih hN.2
    cases hl : lookupL newV k1 with
    | none =>
      rw [List.filterMap_cons, diffOldOp_none pre newV k1 v1 hl]
      show opsFold pre k (rest.filterMap (diffOldOp pre newV))
          (opEffect pre k (PatchOp.remove (pre ++ k1)) o) = _
      by_cases hkk : k1 = k
      · subst hkk
        rw [opsFold_id pre k1 _ _ (diffOld_ops_path_ne pre newV rest k1 hN.1)]
        simp [opEffect, lookupL, hl]
      · have hne : ¬ (pre ++ k1 = pre ++ k) := fun hc => hkk (strAppend_cancel hc)
        simp only [opEffect, if_neg hne, lookupL, if_neg hkk]
        exact hrest o
    | some nv =>
      by_cases hv : nv = v1
      · rw [List.filterMap_cons, diffOldOp_same pre newV k1 v1 nv hl hv]
        by_cases hkk : k1 = k
        · subst hkk
          rw [opsFold_id pre k1 _ _ (diffOld_ops_path_ne pre newV rest k1 hN.1)]
          subst hv
          simp [lookupL, hl]
        · simp only [lookupL, if_neg hkk]
          exact hrest o
      · rw [List.filterMap_cons, diffOldOp_repl pre newV k1 v1 nv hl hv]
        show opsFold pre k (rest.filterMap (diffOldOp pre newV))
            (opEffect pre k (PatchOp.replace (pre ++ k1) nv) o) = _
        by_cases hkk : k1 = k
        · subst hkk
          rw [opsFold_id pre k1 _ _ (diffOld_ops_path_ne pre newV rest k1 hN.1)]
          simp [opEffect, lookupL, hl, hv]
        · have hne : ¬ (pre ++ k1 = pre ++ k) := fun hc => hkk (strAppend_cancel hc)
          simp only [opEffect, if_neg hne, lookupL, if_neg hkk]
          exact hrest o

theorem opsFold_diffNew (pre : String) (oldV : LabelMap) (k : String) :
    ∀ (newV : LabelMap), (keysL newV).Nodup → ∀ (o : Option String),
    opsFold pre k (newV.filterMap (diffNewOp pre oldV)) o =
      match lookupL oldV k with
      | some _ => o
      | none =>
        match lookupL newV k with
        | some nv => some nv
        | none => o := by
  intro newV
  induction newV with
  | nil =>
    intro _ o
    cases lookupL oldV k <;> rfl
  | cons kv rest ih =>
    intro hN o
    obtain ⟨k1, v1⟩ := kv
    rw [keysL, List.map_cons, List.nodup_cons] at hN
    have hrest := ih hN.2
    cases hl : lookupL oldV k1 with
    | some v0 =>
      rw [List.filterMap_cons, diffNewOp_skip pre oldV k1 v1 v0 hl]
      by_cases hkk : k1 = k
      · subst hkk
        rw [opsFold_id pre k1 _ _ (diffNew_ops_path_ne pre oldV rest k1 hN.1), hl]
      · simp only [lookupL, if_neg hkk]
        exact hrest o
    | none =>
      rw [List.filterMap_cons, diffNewOp_add pre oldV k1 v1 hl]
      show opsFold pre k (rest.filterMap (diffNewOp pre oldV))
          (opEffect pre k (PatchOp.add (pre ++ k1) v1) o) = _
      by_cases hkk : k1 = k
      · subst hkk
        rw [opsFold_id pre k1 _ _ (diffNew_ops_path_ne pre oldV rest k1 hN.1)]
        simp [opEffect, lookupL, hl]
      · have hne : ¬ (pre ++ k1 = pre ++ k) := fun hc => hkk (strAppend_cancel hc)
        simp only [opEffect, if_neg hne, lookupL, if_neg hkk]
        exact hrest o

/-- Applying the diff patch computed from `oldV` to `newV` to a remote map
that equals `oldV` yields exactly `newV`, pointwise. -/
theorem diffStringMap_apply (pre : String) (oldV newV : LabelMap)
    (hO : (keysL oldV).Nodup) (hN : (keysL newV).Nodup) (k : String) :
    lookupL (applyPatchOps pre oldV (diffStringMap pre oldV newV)) k = lookupL newV k := by
  rw [applyPatchOps_lookup pre _ oldV k (diffStringMap_wf pre oldV newV),
    diffStringMap_eq_parts, opsFold_append,
    opsFold_diffOld pre newV k oldV hO,
    opsFold_diffNew pre oldV k newV hN]
  cases ho : lookupL oldV k with
  | none =>
    cases hn : lookupL newV k <;> simp
  | some ov =>
    cases hn : lookupL newV k with
    | none => simp [ho]
    | some nv =>
      by_cases hv : nv = ov
      · simp [ho, hv]
      · simp [ho, hv]

/-- A key absent from both the old and the new label map is untouched by the
diff patch, on any remote map. -/
theorem diffStringMap_preserves (pre : String) (oldV newV R : LabelMap) (k : String)
    (hold : lookupL oldV k = none) (hnew : lookupL newV k = none) :
    lookupL (applyPatchOps pre R (diffStringMap pre oldV newV)) k = lookupL R k := by
  rw [applyPatchOps_lookup pre _ R k (diffStringMap_wf pre oldV newV)]
  apply opsFold_id
  intro op hop
  rw [diffStringMap_eq_parts] at hop
  rcases List.mem_append.mp hop with h1 | h1
  · exact diffOld_ops_path_ne pre newV oldV k (lookupL_eq_none_notMem hold) op h1
  · exact diffNew_ops_path_ne pre oldV newV k (lookupL_eq_none_notMem hnew) op h1

/-- The diff patch against an empty new map is exactly one remove per key of
the old map. -/
theorem diffStringMap_empty_new (pre : String) (oldV : LabelMap) :
    diffStringMap pre oldV [] = oldV.map fun kv => PatchOp.remove (pre ++ kv.1) := by
  have haux : ∀ (l : LabelMap),
      List.filterMap (diffOldOp pre []) l = l.map fun kv => PatchOp.remove (pre ++ kv.1) := by
    intro l
    induction l with
    | nil => rfl
    | cons kv rest ih =>
      obtain ⟨k1, v1⟩ := kv
      rw [List.filterMap_cons, diffOldOp_none pre [] k1 v1 rfl, List.map_cons, ih]
  rw [diffStringMap_eq_parts, haux oldV]
  simp

theorem ssaMergeOp_applied (owned : List String) (applied : LabelMap) (k1 v1 v : String)
    (ha : lookupL applied k1 = some v) :
    ssaMergeOp owned applied (k1, v1) = some (k1, v) := by
  simp [ssaMergeOp, ha]

theorem ssaMergeOp_owned (owned : List String) (applied : LabelMap) (k1 v1 : String)
    (ha : lookupL applied k1 = none) (how : owned.contains k1 = true) :
    ssaMergeOp owned applied (k1, v1) = none := by
  have howm : k1 ∈ owned := by simpa using how
  simp [ssaMergeOp, ha, howm]

theorem ssaMergeOp_keep (owned : List String) (applied : LabelMap) (k1 v1 : String)
    (ha : lookupL applied k1 = none) (how : owned.contains k1 = false) :
    ssaMergeOp owned applied (k1, v1) = some (k1, v1) := by
  have howm : k1 ∉ owned := by simpa using how
  simp [ssaMergeOp, ha, howm]

/-- Pointwise behaviour of the spec-modelled server-side-apply merge. -/
theorem serverSideApplyLabels_lookup (owned : List String) (applied remote : LabelMap)
    (k : String) :
    lookupL (serverSideApplyLabels owned applied remote) k =
      match lookupL applied k, lookupL remote k with
      | some v, _ => some v
      | none, some rv => if owned.contains k then none else some rv
      | none, none => none := by
  have hX : ∀ (rem : LabelMap),
      lookupL (rem.filterMap (ssaMergeOp owned applied)) k =
        match lookupL rem k with
        | none => none
        | some rv =>
          match lookupL applied k with
          | some v => some v
          | none => if owned.contains k then none else some rv := by
    intro rem
    induction rem with
    | nil => rfl
    | cons kv rest ih =>
      obtain ⟨k1, v1⟩ := kv
      rw [List.filterMap_cons]
      cases ha : lookupL applied k1 with
      | some v =>
        rw [ssaMergeOp_applied owned applied k1 v1 v ha]
        by_cases hkk : k1 = k
        · subst hkk
          simp [lookupL, ha]
        · simp only [lookupL, if_neg hkk]
          exact ih
      | none =>
        cases how : owned.contains k1 with
        | true =>
          rw [ssaMergeOp_owned owned applied k1 v1 ha how]
          by_cases hkk : k1 = k
          · subst hkk
            rw [ih]
            have howm : k1 ∈ owned := by simpa using how
            cases hr : lookupL rest k1 <;> simp [lookupL, ha, how, howm]
          · simp only [lookupL, if_neg hkk]
            exact ih
        | false =>
          rw [ssaMergeOp_keep owned applied k1 v1 ha how]
          by_cases hkk : k1 = k
          · subst hkk
            have howm : k1 ∉ owned := by simpa using how
            simp [lookupL, ha, how, howm]
          · simp only [lookupL, if_neg hkk]
            exact ih
  rw [serverSideApplyLabels, lookupL_append, hX remote,
    lookupL_filter_key (fun x => (lookupL remote x).isNone) applied k]
  cases hr : lookupL remote k with
  | none =>
    cases ha : lookupL applied k <;> simp [ha, hr]
  | some rv =>
    cases ha : lookupL applied k with
    | some v => simp [ha, hr]
    | none =>
      cases how : owned.contains k with
      | true =>
        have howm : k ∈ owned := by simpa using how
        simp [ha, hr, how, howm]
      | false =>
        have howm : k ∉ owned := by simpa using how
        simp [ha, hr, how, howm]

/-- Applying an empty desired map by server-side apply removes exactly the
keys owned by this manager. -/
theorem serverSideApplyLabels_empty (owned : List String) (remote : LabelMap) :
    serverSideApplyLabels owned [] remote =
      remote.filter fun kv => !(owned.contains kv.1) := by
  have haux : ∀ (l : LabelMap),
      l.filterMap (ssaMergeOp owned []) = l.filter fun kv => !(owned.contains kv.1) := by
    intro l
    induction l with
    | nil => rfl
    | cons kv rest ih =>
      obtain ⟨k1, v1⟩ := kv
      rw [List.filterMap_cons, List.filter_cons]
      cases how : owned.contains k1 with
      | true =>
        rw [ssaMergeOp_owned owned [] k1 v1 rfl how, ih]
        simp [how]
      | false =>
        rw [ssaMergeOp_keep owned [] k1 v1 rfl how, ih]
        simp [how]
  rw [serverSideApplyLabels, haux remote]
  simp

theorem getManagedLabelsLoop_skip (mgr : String) :
    ∀ (es : List ManagedFieldsEntry), (∀ e ∈ es, e.manager ≠ mgr) →
      ∀ (rest : List ManagedFieldsEntry) (acc : Option (List (String × JVal))),
        getManagedLabelsLoop mgr (es ++ rest) acc = getManagedLabelsLoop mgr rest acc := by
  intro es
  induction es with
  | nil => intro _ rest acc; rfl
  | cons e tail ih =>
    intro h rest acc
    have he : e.manager ≠ mgr := h e (List.mem_cons_self _ _)
    show getManagedLabelsLoop mgr (e :: (tail ++ rest)) acc = _
    simp only [getManagedLabelsLoop, if_pos he]
    exact ih (fun e2 he2 => h e2 (List.mem_cons_of_mem _ he2)) rest acc

theorem filter_manager_ne (es : List ManagedFieldsEntry) :
    ∀ e ∈ es.filter fun e => !(e.manager == defaultFieldManagerName),
      e.manager ≠ defaultFieldManagerName := by
  intro e he
  have hmem := List.of_mem_filter he
  simpa using hmem

/-- After an apply patch, reading back the managed labels of this manager
from the reconstructed managed fields succeeds and returns exactly the
applied keys under their `f:`-prefixed names. -/
theorem getManagedLabels_mkEntry (es : List ManagedFieldsEntry) (ks : List String) :
    getManagedLabels
        ((es.filter fun e => !(e.manager == defaultFieldManagerName)) ++
          [mkManagedFieldsEntry defaultFieldManagerName ks]) defaultFieldManagerName =
      .ok (some (ks.map fun k => ("f:" ++ k, JVal.obj []))) := by
  rw [getManagedLabels,
    getManagedLabelsLoop_skip defaultFieldManagerName _ (filter_manager_ne es) _ none]
  rfl

theorem hasJKey_mapFKeys (ks : List String) (k : String) :
    hasJKey (some (ks.map fun k2 => ("f:" ++ k2, JVal.obj []))) ("f:" ++ k) =
      ks.contains k := by
  induction ks with
  | nil => rfl
  | cons k1 rest ih =>
    show (lookupJ (("f:" ++ k1, JVal.obj []) ::
        rest.map fun k2 => ("f:" ++ k2, JVal.obj [])) ("f:" ++ k)).isSome = _
    by_cases hkk : k1 = k
    · subst hkk
      simp [lookupJ]
    · have hne : ¬ ("f:" ++ k1 = "f:" ++ k) := fun hc => hkk (strAppend_cancel hc)
      have ih2 : (lookupJ (rest.map fun k2 => ("f:" ++ k2, JVal.obj []))
          ("f:" ++ k)).isSome = rest.contains k := ih
      simp [lookupJ, hne, ih2, List.contains_cons, hkk, Ne.symm hkk]

theorem diff_mem_remove_iff (pre : String) (oldV newV : LabelMap) (k : String) :
    PatchOp.remove (pre ++ k) ∈ diffStringMap pre oldV newV ↔
      (lookupL oldV k).isSome ∧ lookupL newV k = none := by
  rw [diffStringMap_eq_parts, List.mem_append]
  constructor
  · intro h
    rcases h with h | h
    · obtain ⟨kv, hkv, heq⟩ := List.mem_filterMap.mp h
      obtain ⟨k1, v1⟩ := kv
      cases hl : lookupL newV k1 with
      | none =>
        rw [diffOldOp_none pre newV k1 v1 hl] at heq
        have hpath : pre ++ k1 = pre ++ k := PatchOp.remove.inj (Option.some.inj heq)
        obtain rfl := strAppend_cancel hpath
        exact ⟨lookupL_isSome_of_mem hkv, hl⟩
      | some nv =>
        by_cases hv : nv = v1
        · rw [diffOldOp_same pre newV k1 v1 nv hl hv] at heq
          exact absurd heq (by simp)
        · rw [diffOldOp_repl pre newV k1 v1 nv hl hv] at heq
          exact absurd (Option.some.inj heq) (by simp)
    · obtain ⟨kv, hkv, heq⟩ := List.mem_filterMap.mp h
      obtain ⟨k1, v1⟩ := kv
      cases hl : lookupL oldV k1 with
      | none =>
        rw [diffNewOp_add pre oldV k1 v1 hl] at heq
        exact absurd (Option.some.inj heq) (by simp)
      | some v0 =>
        rw [diffNewOp_skip pre oldV k1 v1 v0 hl] at heq
        exact absurd heq (by simp)
  · rintro ⟨hsome, hnone⟩
    left
    cases ho : lookupL oldV k with
    | none =>
      rw [ho] at hsome
      simp at hsome
    | some v0 =>
      exact List.mem_filterMap.mpr
        ⟨(k, v0), lookupL_eq_some_mem ho, diffOldOp_none pre newV k v0 hnone⟩

theorem diff_mem_replace_iff (pre : String) (oldV newV : LabelMap) (k v : String)
    (hO : (keysL oldV).Nodup) :
    PatchOp.replace (pre ++ k) v ∈ diffStringMap pre oldV newV ↔
      ∃ ov, lookupL oldV k = some ov ∧ lookupL newV k = some v ∧ ¬ v = ov := by
  rw [diffStringMap_eq_parts, List.mem_append]
  constructor
  · intro h
    rcases h with h | h
    · obtain ⟨kv, hkv, heq⟩ := List.mem_filterMap.mp h
      obtain ⟨k1, v1⟩ := kv
      cases hl : lookupL newV k1 with
      | none =>
        rw [diffOldOp_none pre newV k1 v1 hl] at heq
        exact absurd (Option.some.inj heq) (by simp)
      | some nv =>
        by_cases hv : nv = v1
        · rw [diffOldOp_same pre newV k1 v1 nv hl hv] at heq
          exact absurd heq (by simp)
        · rw [diffOldOp_repl pre newV k1 v1 nv hl hv] at heq
          have hinj := PatchOp.replace.inj (Option.some.inj heq)
          obtain rfl := strAppend_cancel hinj.1
          obtain rfl := hinj.2
          exact ⟨v1, lookupL_of_mem_nodup hO hkv, hl, hv⟩
    · obtain ⟨kv, hkv, heq⟩ := List.mem_filterMap.mp h
      obtain ⟨k1, v1⟩ := kv
      cases hl : lookupL oldV k1 with
      | none =>
        rw [diffNewOp_add pre oldV k1 v1 hl] at heq
        exact absurd (Option.some.inj heq) (by simp)
      | some v0 =>
        rw [diffNewOp_skip pre oldV k1 v1 v0 hl] at heq
        exact absurd heq (by simp)
  · rintro ⟨ov, ho, hn, hv⟩
    left
    exact List.mem_filterMap.mpr
      ⟨(k, ov), lookupL_eq_some_mem ho, diffOldOp_repl pre newV k ov v hn hv⟩

theorem diff_mem_add_iff (pre : String) (oldV newV : LabelMap) (k v : String)
    (hN : (keysL newV).Nodup) :
    PatchOp.add (pre ++ k) v ∈ diffStringMap pre oldV newV ↔
      lookupL oldV k = none ∧ lookupL newV k = some v := by
  rw [diffStringMap_eq_parts, List.mem_append]
  constructor
  · intro h
    rcases h with h | h
    · obtain ⟨kv, hkv, heq⟩ := List.mem_filterMap.mp h
      obtain ⟨k1, v1⟩ := kv
      cases hl : lookupL newV k1 with
      | none =>
        rw [diffOldOp_none pre newV k1 v1 hl] at heq
        exact absurd (Option.some.inj heq) (by simp)
      | some nv =>
        by_cases hv : nv = v1
        · rw [diffOldOp_same pre newV k1 v1 nv hl hv] at heq
          exact absurd heq (by simp)
        · rw [diffOldOp_repl pre newV k1 v1 nv hl hv] at heq
          exact absurd (Option.some.inj heq) (by simp)
    · obtain ⟨kv, hkv, heq⟩ := List.mem_filterMap.mp h
      obtain ⟨k1, v1⟩ := kv
      cases hl : lookupL oldV k1 with
      | none =>
        rw [diffNewOp_add pre oldV k1 v1 hl] at heq
        have hinj := PatchOp.add.inj (Option.some.inj heq)
        obtain rfl := strAppend_cancel hinj.1
        obtain rfl := hinj.2
        exact ⟨hl, lookupL_of_mem_nodup hN hkv⟩
      | some v0 =>
        rw [diffNewOp_skip pre oldV k1 v1 v0 hl] at heq
        exact absurd heq (by simp)
  · rintro ⟨ho, hn⟩
    right
    exact List.mem_filterMap.mpr
      ⟨(k, v), lookupL_eq_some_mem hn, diffNewOp_add pre oldV k v ho⟩

/-- A fully successful environment: every external call succeeds, the REST
mapping reports the given scope. -/
def envHappy (nsd : Bool) : Env :=
  { dynamicClient := .ok ()
    discoveryClient := .ok ()
    apiGroupResources := .ok ()
    parseGroupVersion := fun s => .ok ⟨"", s⟩
    restMapping := fun _ _ => .ok ⟨nsd⟩
    marshalJSON := .ok ()
    getErr := none
    patchErr := none }

/-- The namespace a request targets, as both variants compute it. -/
def nsTarget (mp : RESTMapping) (ns : String) : Option String :=
  if mp.namespaced then some (if ns = "" then "default" else ns) else none

theorem readB_ok (env : Env) (c : RemoteObject) (d : ResourceData) (gv : GroupVersion)
    (mp : RESTMapping) (h1 : env.dynamicClient = .ok ()) (h2 : env.discoveryClient = .ok ())
    (h3 : env.parseGroupVersion d.apiVersion = .ok gv)
    (h4 : env.restMapping gv d.kind = .ok mp) (h5 : env.getErr = none) :
    VariantB.resourceKubernetesLabelsRead env c d =
      ({ d with labels := c.labels }, .ok ⟨nsTarget mp d.ns, c.labels⟩) := by
  unfold VariantB.resourceKubernetesLabelsRead
  simp only [h1, h2, h3, h4, h5]
  rfl

theorem readA_ok (env : Env) (c : RemoteObject) (d : ResourceData) (gv : GroupVersion)
    (mp : RESTMapping) (ml : Option (List (String × JVal)))
    (h1 : env.dynamicClient = .ok ()) (h2 : env.discoveryClient = .ok ())
    (h3 : env.parseGroupVersion d.apiVersion = .ok gv)
    (h4 : env.restMapping gv d.kind = .ok mp) (h5 : env.getErr = none)
    (h6 : getManagedLabels c.managedFields defaultFieldManagerName = .ok ml) :
    VariantA.resourceKubernetesLabelsRead env c d =
      ({ d with labels := c.labels.filter fun kv =>
          hasJKey ml ("f:" ++ kv.1) || (lookupL d.labels kv.1).isSome },
        .ok ⟨nsTarget mp d.ns,
          c.labels.filter fun kv =>
            hasJKey ml ("f:" ++ kv.1) || (lookupL d.labels kv.1).isSome⟩) := by
  unfold VariantA.resourceKubernetesLabelsRead
  simp only [h1, h2, h3, h4, h5, h6]
  rfl

/-- The remote object after a successful variant-B update patch. -/
def patchedB (c : RemoteObject) (d : ResourceData) : RemoteObject :=
  { c with labels :=
      (applyPatchOps "/metadata/labels/" c.labels
        (diffStringMap "/metadata/labels/" d.oldLabels
          (if d.id = "" then [] else d.labels))) }

theorem updateB_ok (env : Env) (c : RemoteObject) (d : ResourceData) (gv : GroupVersion)
    (mp : RESTMapping) (h1 : env.dynamicClient = .ok ()) (h2 : env.discoveryClient = .ok ())
    (h3 : env.parseGroupVersion d.apiVersion = .ok gv)
    (h4 : env.restMapping gv d.kind = .ok mp) (h5 : env.getErr = none)
    (h6 : env.marshalJSON = .ok ()) (h7 : env.patchErr = none) :
    VariantB.resourceKubernetesLabelsUpdate env c d =
      ({ d with labels := (patchedB c d).labels }, patchedB c d,
        .ok ⟨nsTarget mp d.ns,
          diffStringMap "/metadata/labels/" d.oldLabels (if d.id = "" then [] else d.labels),
          ⟨nsTarget mp d.ns, (patchedB c d).labels⟩⟩) := by
  have hread := readB_ok env (patchedB c d) d gv mp h1 h2 h3 h4 h5
  unfold patchedB at hread
  unfold VariantB.resourceKubernetesLabelsUpdate
  simp only [h1, h2, h3, h4, h6, h7]
  rw [hread]
  rfl

/-- The remote object after a successful variant-A apply patch: labels merged
by server-side apply, ownership and managed fields reset to the applied
keys. -/
def patchedA (c : RemoteObject) (d : ResourceData) : RemoteObject :=
  { labels := serverSideApplyLabels c.ownedLabelKeys
      (if d.id = "" then [] else d.labels) c.labels,
    ownedLabelKeys := keysL (if d.id = "" then [] else d.labels),
    managedFields :=
      (c.managedFields.filter fun e => !(e.manager == defaultFieldManagerName)) ++
        [mkManagedFieldsEntry defaultFieldManagerName
          (keysL (if d.id = "" then [] else d.labels))] }

/-- The label map variant A stores after the re-read that ends a successful
update: the merged remote map, filtered by attribution to this manager or
presence in the configured labels. -/
def storedA (c : RemoteObject) (d : ResourceData) : LabelMap :=
  (patchedA c d).labels.filter fun kv =>
    hasJKey (some ((keysL (if d.id = "" then [] else d.labels)).map fun k =>
      ("f:" ++ k, JVal.obj []))) ("f:" ++ kv.1) ||
    (lookupL d.labels kv.1).isSome

theorem updateA_ok (env : Env) (c : RemoteObject) (d : ResourceData) (gv : GroupVersion)
    (mp : RESTMapping) (h1 : env.dynamicClient = .ok ()) (h2 : env.discoveryClient = .ok ())
    (h3 : env.parseGroupVersion d.apiVersion = .ok gv)
    (h4 : env.restMapping gv d.kind = .ok mp) (h5 : env.getErr = none)
    (h6 : env.marshalJSON = .ok ()) (h7 : env.patchErr = none) :
    VariantA.resourceKubernetesLabelsUpdate env c d =
      ({ d with labels := storedA c d }, patchedA c d,
        .ok ⟨nsTarget mp d.ns, if d.id = "" then [] else d.labels, d.force,
          ⟨nsTarget mp d.ns, storedA c d⟩⟩) := by
  have hml : getManagedLabels (patchedA c d).managedFields defaultFieldManagerName =
      .ok (some ((keysL (if d.id = "" then [] else d.labels)).map fun k =>
        ("f:" ++ k, JVal.obj []))) :=
    getManagedLabels_mkEntry c.managedFields (keysL (if d.id = "" then [] else d.labels))
  have hread := readA_ok env (patchedA c d) d gv mp
    (some ((keysL (if d.id = "" then [] else d.labels)).map fun k => ("f:" ++ k, JVal.obj [])))
    h1 h2 h3 h4 h5 hml
  unfold patchedA at hread
  unfold VariantA.resourceKubernetesLabelsUpdate
  simp only [h1, h2, h3, h4, h6, h7]
  rw [hread]
  rfl


/-- The namespace targeted by a successful read (nothing on failure). -/
def readReqNs : GoResult ReadOutcome → Option String
  | .ok o => o.reqNamespace
  | _ => none

/-- The label map stored by a successful read (empty on failure). -/
def readStored : GoResult ReadOutcome → LabelMap
  | .ok o => o.stored
  | _ => []

/-- The namespace targeted by a successful variant-B update patch. -/
def updReqNsB : GoResult UpdateOutcomeB → Option String
  | .ok o => o.reqNamespace
  | _ => none

/-- The namespace targeted by a successful variant-A update patch. -/
def updReqNsA : GoResult UpdateOutcomeA → Option String
  | .ok o => o.reqNamespace
  | _ => none

/-- The JSON-patch operations a successful variant-B update sent. -/
def updOpsB : GoResult UpdateOutcomeB → List PatchOp
  | .ok o => o.ops
  | _ => []

/-- The labels map a successful variant-A update embedded in its apply-patch
body. -/
def updAppliedA : GoResult UpdateOutcomeA → LabelMap
  | .ok o => o.appliedLabels
  | _ => []

/-- The label map stored by the re-read ending a successful variant-B
update. -/
def updStoredB : GoResult UpdateOutcomeB → LabelMap
  | .ok o => o.readOut.stored
  | _ => []

/-- The label map stored by the re-read ending a successful variant-A
update. -/
def updStoredA : GoResult UpdateOutcomeA → LabelMap
  | .ok o => o.readOut.stored
  | _ => []

theorem lookupL_isSome_eq_contains (m : LabelMap) (k : String) :
    (lookupL m k).isSome = (keysL m).contains k := by
  induction m with
  | nil => rfl
  | cons kv rest ih =>
    obtain ⟨k1, v1⟩ := kv
    by_cases hk : k1 = k
    · subst hk
      simp [lookupL, keysL]
    · simp [lookupL, keysL, hk, ih, Ne.symm hk]

/-- The label map variant A stores after a successful update equals the
applied configuration pointwise: unmanaged remote keys survive the merge but
are stripped again by the re-read. -/
theorem storedA_lookup (c : RemoteObject) (d : ResourceData) (hid : ¬ d.id = "")
    (k : String) :
    lookupL (storedA c d) k = lookupL d.labels k := by
  unfold storedA patchedA
  rw [if_neg hid]
  rw [lookupL_filter_key
    (fun x => hasJKey (some ((keysL d.labels).map fun k2 => ("f:" ++ k2, JVal.obj [])))
      ("f:" ++ x) || (lookupL d.labels x).isSome)
    (serverSideApplyLabels c.ownedLabelKeys d.labels c.labels) k]
  rw [hasJKey_mapFKeys (keysL d.labels) k, serverSideApplyLabels_lookup,
    ← lookupL_isSome_eq_contains]
  cases hd : lookupL d.labels k with
  | some v => simp [hd]
  | none => simp [hd]

/-- Claim C9: in variant A, `getManagedLabels` hits an unchecked type assertion and
panics — instead of returning an error — on a managed-fields entry matching
this tool's manager whose FieldsV1 payload lacks an "f:metadata" key, or
carries one that is not a JSON object; and when several entries match the
manager, the labels of the last matching entry win. -/
theorem claim_C9_getManagedLabels_panic_and_last_wins :
    (getManagedLabels [⟨defaultFieldManagerName, .ok [("f:spec", JVal.obj [])]⟩]
        defaultFieldManagerName = GoResult.panic) ∧
    (getManagedLabels [⟨defaultFieldManagerName, .ok [("f:metadata", JVal.s "oops")]⟩]
        defaultFieldManagerName = GoResult.panic) ∧
    (getManagedLabels
        [⟨defaultFieldManagerName,
          .ok [("f:metadata", JVal.obj [("f:labels", JVal.obj [("f:a", JVal.obj [])])])]⟩,
          ⟨"kubectl", .ok [("f:other", JVal.s "x")]⟩,
          ⟨defaultFieldManagerName,
            .ok [("f:metadata", JVal.obj [("f:labels", JVal.obj [("f:b", JVal.obj [])])])]⟩]
        defaultFieldManagerName =
      GoResult.ok (some [("f:b", JVal.obj [])])) :=
  ⟨rfl, rfl, rfl⟩

/-- Claim C5 (code-bug evidence): a failure of `restmapper.GetAPIGroupResources` is
silently dropped — its `err` is overwritten by the `ParseGroupVersion`
assignment before ever being checked, in read and update of both variants —
so the operation completes successfully instead of aborting with that
diagnostic; a checked failure point (the dynamic client, last conjunct) by
contrast propagates its message verbatim. -/
theorem claim_C5_api_group_resources_error_dropped (c : RemoteObject) (d : ResourceData)
    (e : String) :
    (VariantB.resourceKubernetesLabelsRead
        { envHappy true with apiGroupResources := .error e } c d =
      ({ d with labels := c.labels }, .ok ⟨nsTarget ⟨true⟩ d.ns, c.labels⟩)) ∧
    (VariantB.resourceKubernetesLabelsUpdate
        { envHappy true with apiGroupResources := .error e } c d =
      ({ d with labels := (patchedB c d).labels }, patchedB c d,
        .ok ⟨nsTarget ⟨true⟩ d.ns,
          diffStringMap "/metadata/labels/" d.oldLabels (if d.id = "" then [] else d.labels),
          ⟨nsTarget ⟨true⟩ d.ns, (patchedB c d).labels⟩⟩)) ∧
    (VariantA.resourceKubernetesLabelsUpdate
        { envHappy true with apiGroupResources := .error e } c d =
      ({ d with labels := storedA c d }, patchedA c d,
        .ok ⟨nsTarget ⟨true⟩ d.ns, if d.id = "" then [] else d.labels, d.force,
          ⟨nsTarget ⟨true⟩ d.ns, storedA c d⟩⟩)) ∧
    (VariantB.resourceKubernetesLabelsRead
        { envHappy true with dynamicClient := .error e } c d = (d, .err e)) :=
  ⟨readB_ok _ c d ⟨"", d.apiVersion⟩ ⟨true⟩ rfl rfl rfl rfl rfl,
    updateB_ok _ c d ⟨"", d.apiVersion⟩ ⟨true⟩ rfl rfl rfl rfl rfl rfl rfl,
    updateA_ok _ c d ⟨"", d.apiVersion⟩ ⟨true⟩ rfl rfl rfl rfl rfl rfl rfl,
    rfl⟩

/-- Claim C10: delete clears the identifier before the patch request is attempted,
so when the re-invoked update fails — at the dynamic client, the marshal step
or the patch call — the diagnostic comes back with the identifier still
cleared, not restored to its pre-delete value. -/
theorem claim_C10_delete_not_atomic (c : RemoteObject) (d : ResourceData) (e : String) :
    (VariantB.resourceKubernetesLabelsDelete
        { envHappy true with patchErr := some e } c d =
      ({ d with id := "" }, c, GoResult.err e)) ∧
    (VariantA.resourceKubernetesLabelsDelete
        { envHappy true with patchErr := some e } c d =
      ({ d with id := "" }, c, GoResult.err e)) ∧
    (VariantB.resourceKubernetesLabelsDelete
        { envHappy true with dynamicClient := .error e } c d =
      ({ d with id := "" }, c, GoResult.err e)) ∧
    (VariantB.resourceKubernetesLabelsDelete
        { envHappy true with marshalJSON := .error e } c d =
      ({ d with id := "" }, c, GoResult.err e)) ∧
    (¬ d.id = "" →
      ¬ (VariantB.resourceKubernetesLabelsDelete
          { envHappy true with patchErr := some e } c d).1.id = d.id) := by
  refine ⟨rfl, rfl, rfl, rfl, ?_⟩
  intro hid hcontra
  exact hid hcontra.symm

/-- Claim C10 witness: after a delete whose patch call fails, the stored identifier
is no longer the original one. -/
theorem claim_C10_delete_not_atomic_witness :
    ¬ (VariantB.resourceKubernetesLabelsDelete
        { envHappy true with patchErr := some "patch failed" }
        ⟨[], [], []⟩
        ⟨"v1,ConfigMap,default/x", "v1", "ConfigMap", "x", "", [], [], false⟩).1.id =
      "v1,ConfigMap,default/x" :=
  (claim_C10_delete_not_atomic ⟨[], [], []⟩
    ⟨"v1,ConfigMap,default/x", "v1", "ConfigMap", "x", "", [], [], false⟩
    "patch failed").2.2.2.2 (by decide)

/-- Claim C8: delete clears the identifier and re-invokes update, and update,
observing the empty identifier, substitutes an empty desired-label set before
building the patch: variant B's delete diffs the previously-applied map
against an empty map, variant A's delete sends an empty labels map in its
apply-patch body. -/
theorem claim_C8_delete_reinvokes_update (env : Env) (c : RemoteObject) (d : ResourceData)
    (gv : GroupVersion) (mp : RESTMapping)
    (h1 : env.dynamicClient = .ok ()) (h2 : env.discoveryClient = .ok ())
    (h3 : env.parseGroupVersion d.apiVersion = .ok gv)
    (h4 : env.restMapping gv d.kind = .ok mp) (h5 : env.getErr = none)
    (h6 : env.marshalJSON = .ok ()) (h7 : env.patchErr = none) :
    (VariantB.resourceKubernetesLabelsDelete env c d =
      VariantB.resourceKubernetesLabelsUpdate env c { d with id := "" }) ∧
    (VariantA.resourceKubernetesLabelsDelete env c d =
      VariantA.resourceKubernetesLabelsUpdate env c { d with id := "" }) ∧
    (updOpsB (VariantB.resourceKubernetesLabelsDelete env c d).2.2 =
      diffStringMap "/metadata/labels/" d.oldLabels []) ∧
    (updAppliedA (VariantA.resourceKubernetesLabelsDelete env c d).2.2 = []) := by
  refine ⟨rfl, rfl, ?_, ?_⟩
  · show updOpsB (VariantB.resourceKubernetesLabelsUpdate env c { d with id := "" }).2.2 = _
    rw [updateB_ok env c { d with id := "" } gv mp h1 h2 h3 h4 h5 h6 h7]
    show diffStringMap "/metadata/labels/" d.oldLabels
        (if ("" : String) = "" then [] else d.labels) = _
    rw [if_pos rfl]
  · show updAppliedA (VariantA.resourceKubernetesLabelsUpdate env c { d with id := "" }).2.2 = _
    rw [updateA_ok env c { d with id := "" } gv mp h1 h2 h3 h4 h5 h6 h7]
    show (if ("" : String) = "" then ([] : LabelMap) else d.labels) = _
    rw [if_pos rfl]

/-- Claim C8 witness: on a concrete record, the delete patch of variant B consists
of the remove operations for the previously-applied keys. -/
theorem claim_C8_delete_reinvokes_update_witness :
    updOpsB (VariantB.resourceKubernetesLabelsDelete (envHappy true)
        ⟨[("a", "1")], [], []⟩
        ⟨"id1", "v1", "ConfigMap", "x", "", [("a", "1")], [("a", "1")], false⟩).2.2 =
      diffStringMap "/metadata/labels/" [("a", "1")] [] :=
  (claim_C8_delete_reinvokes_update (envHappy true)
    ⟨[("a", "1")], [], []⟩
    ⟨"id1", "v1", "ConfigMap", "x", "", [("a", "1")], [("a", "1")], false⟩
    ⟨"", "v1"⟩ ⟨true⟩ rfl rfl rfl rfl rfl rfl rfl).2.2.1

/-- Claim C1: deleting the management record removes only label keys this tool owns
or is asked to manage.  Variant A's delete leaves the remote map with exactly
its unowned keys; variant B's delete patch, a diff of the previously-applied
map against an empty map, leaves every key outside the previously-applied map
untouched; and in general neither a diff patch nor a server-side-apply merge
ever deletes a key outside the old/new (resp. owned/applied) sets. -/
theorem claim_C1_delete_removes_only_owned (c : RemoteObject) (d : ResourceData)
    (pre : String) (owned : List String) (oldV newV applied R : LabelMap) (k : String) :
    ((VariantA.resourceKubernetesLabelsDelete (envHappy true) c d).2.1.labels =
      c.labels.filter fun kv => !(c.ownedLabelKeys.contains kv.1)) ∧
    (lookupL d.oldLabels k = none →
      lookupL (VariantB.resourceKubernetesLabelsDelete (envHappy true) c d).2.1.labels k =
        lookupL c.labels k) ∧
    (lookupL oldV k = none → lookupL newV k = none →
      lookupL (applyPatchOps pre R (diffStringMap pre oldV newV)) k = lookupL R k) ∧
    (owned.contains k = false → lookupL applied k = none →
      lookupL (serverSideApplyLabels owned applied R) k = lookupL R k) := by
  refine ⟨?_, ?_, ?_, ?_⟩
  · show (VariantA.resourceKubernetesLabelsUpdate (envHappy true) c
        { d with id := "" }).2.1.labels = _
    rw [updateA_ok (envHappy true) c { d with id := "" } ⟨"", d.apiVersion⟩ ⟨true⟩
      rfl rfl rfl rfl rfl rfl rfl]
    show (patchedA c { d with id := "" }).labels = _
    unfold patchedA
    show serverSideApplyLabels c.ownedLabelKeys
        (if ("" : String) = "" then [] else d.labels) c.labels = _
    rw [if_pos rfl]
    exact serverSideApplyLabels_empty c.ownedLabelKeys c.labels
  · intro hold
    show lookupL (VariantB.resourceKubernetesLabelsUpdate (envHappy true) c
        { d with id := "" }).2.1.labels k = _
    rw [updateB_ok (envHappy true) c { d with id := "" } ⟨"", d.apiVersion⟩ ⟨true⟩
      rfl rfl rfl rfl rfl rfl rfl]
    show lookupL (patchedB c { d with id := "" }).labels k = _
    unfold patchedB
    show lookupL (applyPatchOps "/metadata/labels/" c.labels
        (diffStringMap "/metadata/labels/" d.oldLabels
          (if ("" : String) = "" then [] else d.labels))) k = _
    rw [if_pos rfl]
    exact diffStringMap_preserves "/metadata/labels/" d.oldLabels [] c.labels k hold rfl
  · intro hl1 hl2
    exact diffStringMap_preserves pre oldV newV R k hl1 hl2
  · intro hl1 hl2
    rw [serverSideApplyLabels_lookup]
    have hl1m : k ∉ owned := by simpa using hl1
    cases hr : lookupL R k with
    | none => simp [hl2]
    | some rv => simp [hl2, hl1m]

/-- Claim C1 witness: a concrete unmanaged label `env:prod` survives the delete of
both variants and the general patch operations. -/
theorem claim_C1_delete_removes_only_owned_witness :
    ((VariantA.resourceKubernetesLabelsDelete (envHappy true)
        ⟨[("a", "1"), ("env", "prod")], [], ["a"]⟩
        ⟨"id1", "v1", "ConfigMap", "x", "", [("a", "1")], [("a", "1")], false⟩).2.1.labels =
      [("env", "prod")]) ∧
    (lookupL (VariantB.resourceKubernetesLabelsDelete (envHappy true)
        ⟨[("a", "1"), ("env", "prod")], [], ["a"]⟩
        ⟨"id1", "v1", "ConfigMap", "x", "", [("a", "1")], [("a", "1")], false⟩).2.1.labels
      "env" = some "prod") ∧
    (lookupL (applyPatchOps "/p/" [("env", "prod")]
        (diffStringMap "/p/" [("a", "1")] [])) "env" = some "prod") ∧
    (lookupL (serverSideApplyLabels ["a"] [] [("env", "prod")]) "env" = some "prod") := by
  have h := claim_C1_delete_removes_only_owned
    ⟨[("a", "1"), ("env", "prod")], [], ["a"]⟩
    ⟨"id1", "v1", "ConfigMap", "x", "", [("a", "1")], [("a", "1")], false⟩
    "/p/" ["a"] [("a", "1")] [] [] [("env", "prod")] "env"
  exact ⟨h.1, h.2.1 rfl, h.2.2.1 rfl rfl, h.2.2.2 rfl rfl⟩

/-- Claim C2: on the spec's example, `diffStringMap` over path pre-string
"/metadata/labels/" produces exactly remove a, replace b with 3, add c with
4; and in general its output is the strict add/remove/replace set between the
old and the new map: a remove for exactly the keys of old absent from new, a
replace for exactly the keys in both whose values differ, an add for exactly
the keys of new absent from old. -/
theorem claim_C2_diffStringMap_strict_diff (pre : String) (oldV newV : LabelMap)
    (k v : String) (hO : (keysL oldV).Nodup) (hN : (keysL newV).Nodup) :
    (diffStringMap "/metadata/labels/" [("a", "1"), ("b", "2")] [("b", "3"), ("c", "4")] =
      [PatchOp.remove "/metadata/labels/a", PatchOp.replace "/metadata/labels/b" "3",
        PatchOp.add "/metadata/labels/c" "4"]) ∧
    (PatchOp.remove (pre ++ k) ∈ diffStringMap pre oldV newV ↔
      (lookupL oldV k).isSome ∧ lookupL newV k = none) ∧
    (PatchOp.replace (pre ++ k) v ∈ diffStringMap pre oldV newV ↔
      ∃ ov, lookupL oldV k = some ov ∧ lookupL newV k = some v ∧ ¬ v = ov) ∧
    (PatchOp.add (pre ++ k) v ∈ diffStringMap pre oldV newV ↔
      lookupL oldV k = none ∧ lookupL newV k = some v) :=
  ⟨rfl, diff_mem_remove_iff pre oldV newV k,
    diff_mem_replace_iff pre oldV newV k v hO,
    diff_mem_add_iff pre oldV newV k v hN⟩

/-- Claim C2 witness: the replace characterisation instantiated on the example. -/
theorem claim_C2_diffStringMap_strict_diff_witness :
    PatchOp.replace ("/p/" ++ "b") "3" ∈
        diffStringMap "/p/" [("a", "1"), ("b", "2")] [("b", "3"), ("c", "4")] ↔
      ∃ ov, lookupL [("a", "1"), ("b", "2")] "b" = some ov ∧
        lookupL [("b", "3"), ("c", "4")] "b" = some "3" ∧ ¬ ("3" : String) = ov :=
  (claim_C2_diffStringMap_strict_diff "/p/" [("a", "1"), ("b", "2")] [("b", "3"), ("c", "4")]
    "b" "3" (by decide) (by decide)).2.2.1

/-- Claim C3: on a successful read, variant A stores the fetched remote label map
with exactly those keys removed that are neither present in the configured
(desired) labels nor attributed to this tool's field manager in the
managed-fields metadata — pointwise, a key survives iff it is attributed or
configured — while variant B stores the fetched remote label map unchanged. -/
theorem claim_C3_read_filtering (env : Env) (c : RemoteObject) (d : ResourceData)
    (gv : GroupVersion) (mp : RESTMapping) (ml : Option (List (String × JVal))) (k : String)
    (h1 : env.dynamicClient = .ok ()) (h2 : env.discoveryClient = .ok ())
    (h3 : env.parseGroupVersion d.apiVersion = .ok gv)
    (h4 : env.restMapping gv d.kind = .ok mp) (h5 : env.getErr = none)
    (h6 : getManagedLabels c.managedFields defaultFieldManagerName = .ok ml) :
    (VariantA.resourceKubernetesLabelsRead env c d =
      ({ d with labels := c.labels.filter fun kv =>
          hasJKey ml ("f:" ++ kv.1) || (lookupL d.labels kv.1).isSome },
        .ok ⟨nsTarget mp d.ns,
          c.labels.filter fun kv =>
            hasJKey ml ("f:" ++ kv.1) || (lookupL d.labels kv.1).isSome⟩)) ∧
    (lookupL (c.labels.filter fun kv =>
        hasJKey ml ("f:" ++ kv.1) || (lookupL d.labels kv.1).isSome) k =
      if hasJKey ml ("f:" ++ k) || (lookupL d.labels k).isSome
      then lookupL c.labels k else none) ∧
    (VariantB.resourceKubernetesLabelsRead env c d =
      ({ d with labels := c.labels }, .ok ⟨nsTarget mp d.ns, c.labels⟩)) :=
  ⟨readA_ok env c d gv mp ml h1 h2 h3 h4 h5 h6,
    lookupL_filter_key
      (fun x => hasJKey ml ("f:" ++ x) || (lookupL d.labels x).isSome) c.labels k,
    readB_ok env c d gv mp h1 h2 h3 h4 h5⟩

/-- Claim C3 witness: a remote map with one desired key and one foreign key, no
attribution; variant A's read keeps only the desired key, variant B's read
stores the map unchanged. -/
theorem claim_C3_read_filtering_witness :
    ((VariantA.resourceKubernetesLabelsRead (envHappy true)
        ⟨[("a", "1"), ("env", "prod")], [], []⟩
        ⟨"id1", "v1", "ConfigMap", "x", "", [("a", "1")], [("a", "1")], false⟩).2 =
      GoResult.ok ⟨some "default", [("a", "1")]⟩) ∧
    ((VariantB.resourceKubernetesLabelsRead (envHappy true)
        ⟨[("a", "1"), ("env", "prod")], [], []⟩
        ⟨"id1", "v1", "ConfigMap", "x", "", [("a", "1")], [("a", "1")], false⟩).2 =
      GoResult.ok ⟨some "default", [("a", "1"), ("env", "prod")]⟩) := by
  have h := claim_C3_read_filtering (envHappy true)
    ⟨[("a", "1"), ("env", "prod")], [], []⟩
    ⟨"id1", "v1", "ConfigMap", "x", "", [("a", "1")], [("a", "1")], false⟩
    ⟨"", "v1"⟩ ⟨true⟩ none "env" rfl rfl rfl rfl rfl rfl
  exact ⟨congrArg Prod.snd h.1, congrArg Prod.snd h.2.2⟩

/-- Claim C4 counterexample: a remote label `env:prod` that is neither desired nor
attributed to this tool's manager is NOT preserved by variant A's read as the
claim states: the read operation deletes it from the stored label map. -/
theorem claim_C4_counterexample_unmanaged_label_dropped :
    ((VariantA.resourceKubernetesLabelsRead (envHappy true)
        ⟨[("env", "prod")], [], []⟩
        ⟨"id1", "v1", "ConfigMap", "x", "", [("owner", "team")], [("owner", "team")],
          false⟩).2 =
      GoResult.ok ⟨some "default", []⟩) ∧
    (lookupL [("env", "prod")] "env" = some "prod") ∧
    (lookupL [("owner", "team")] "env" = none) ∧
    (getManagedLabels [] defaultFieldManagerName = GoResult.ok none) :=
  ⟨rfl, rfl, rfl, rfl⟩

/-- Claim C4 as amended: such a label is preserved by variant B's read, which
stores the remote map unchanged (and read in either variant issues no write
to the remote object); variant A's read, however, strips it from the stored
label map. -/
theorem claim_C4_amended_preservation (env : Env) (c : RemoteObject) (d : ResourceData)
    (gv : GroupVersion) (mp : RESTMapping) (ml : Option (List (String × JVal))) (k : String)
    (h1 : env.dynamicClient = .ok ()) (h2 : env.discoveryClient = .ok ())
    (h3 : env.parseGroupVersion d.apiVersion = .ok gv)
    (h4 : env.restMapping gv d.kind = .ok mp) (h5 : env.getErr = none)
    (h6 : getManagedLabels c.managedFields defaultFieldManagerName = .ok ml) :
    (readStored (VariantB.resourceKubernetesLabelsRead env c d).2 = c.labels) ∧
    (hasJKey ml ("f:" ++ k) = false → lookupL d.labels k = none →
      lookupL (readStored (VariantA.resourceKubernetesLabelsRead env c d).2) k = none) := by
  constructor
  · rw [readB_ok env c d gv mp h1 h2 h3 h4 h5]
    rfl
  · intro hm hd
    rw [readA_ok env c d gv mp ml h1 h2 h3 h4 h5 h6]
    show lookupL (c.labels.filter fun kv =>
      hasJKey ml ("f:" ++ kv.1) || (lookupL d.labels kv.1).isSome) k = none
    rw [lookupL_filter_key
      (fun x => hasJKey ml ("f:" ++ x) || (lookupL d.labels x).isSome) c.labels k]
    simp [hm, hd]

/-- Claim C4 witness: on the `env:prod` example, variant B's read stores the map
unchanged while variant A's read drops the unmanaged key. -/
theorem claim_C4_amended_preservation_witness :
    (readStored (VariantB.resourceKubernetesLabelsRead (envHappy true)
        ⟨[("env", "prod")], [], []⟩
        ⟨"id1", "v1", "ConfigMap", "x", "", [("owner", "team")], [("owner", "team")],
          false⟩).2 = [("env", "prod")]) ∧
    (lookupL (readStored (VariantA.resourceKubernetesLabelsRead (envHappy true)
        ⟨[("env", "prod")], [], []⟩
        ⟨"id1", "v1", "ConfigMap", "x", "", [("owner", "team")], [("owner", "team")],
          false⟩).2) "env" = none) := by
  have h := claim_C4_amended_preservation (envHappy true)
    ⟨[("env", "prod")], [], []⟩
    ⟨"id1", "v1", "ConfigMap", "x", "", [("owner", "team")], [("owner", "team")], false⟩
    ⟨"", "v1"⟩ ⟨true⟩ none "env" rfl rfl rfl rfl rfl rfl
  exact ⟨h.1, h.2 rfl rfl⟩

/-- Claim C6: on read and update, in both variants, an omitted (empty) namespace on
a namespace-scoped kind makes the request target namespace "default", while a
cluster-scoped kind gets no namespace. -/
theorem claim_C6_namespace_defaulting (env : Env) (c : RemoteObject) (d : ResourceData)
    (gv : GroupVersion) (ml : Option (List (String × JVal)))
    (h1 : env.dynamicClient = .ok ()) (h2 : env.discoveryClient = .ok ())
    (h3 : env.parseGroupVersion d.apiVersion = .ok gv) (h5 : env.getErr = none)
    (h6 : env.marshalJSON = .ok ()) (h7 : env.patchErr = none)
    (hml : getManagedLabels c.managedFields defaultFieldManagerName = .ok ml) :
    (env.restMapping gv d.kind = .ok ⟨true⟩ → d.ns = "" →
      readReqNs (VariantB.resourceKubernetesLabelsRead env c d).2 = some "default" ∧
      readReqNs (VariantA.resourceKubernetesLabelsRead env c d).2 = some "default" ∧
      updReqNsB (VariantB.resourceKubernetesLabelsUpdate env c d).2.2 = some "default" ∧
      updReqNsA (VariantA.resourceKubernetesLabelsUpdate env c d).2.2 = some "default") ∧
    (env.restMapping gv d.kind = .ok ⟨false⟩ →
      readReqNs (VariantB.resourceKubernetesLabelsRead env c d).2 = none ∧
      readReqNs (VariantA.resourceKubernetesLabelsRead env c d).2 = none ∧
      updReqNsB (VariantB.resourceKubernetesLabelsUpdate env c d).2.2 = none ∧
      updReqNsA (VariantA.resourceKubernetesLabelsUpdate env c d).2.2 = none) := by
  constructor
  · intro hm hns
    refine ⟨?_, ?_, ?_, ?_⟩
    · rw [readB_ok env c d gv ⟨true⟩ h1 h2 h3 hm h5]
      simp [readReqNs, nsTarget, hns]
    · rw [readA_ok env c d gv ⟨true⟩ ml h1 h2 h3 hm h5 hml]
      simp [readReqNs, nsTarget, hns]
    · rw [updateB_ok env c d gv ⟨true⟩ h1 h2 h3 hm h5 h6 h7]
      simp [updReqNsB, nsTarget, hns]
    · rw [updateA_ok env c d gv ⟨true⟩ h1 h2 h3 hm h5 h6 h7]
      simp [updReqNsA, nsTarget, hns]
  · intro hm
    refine ⟨?_, ?_, ?_, ?_⟩
    · rw [readB_ok env c d gv ⟨false⟩ h1 h2 h3 hm h5]
      simp [readReqNs, nsTarget]
    · rw [readA_ok env c d gv ⟨false⟩ ml h1 h2 h3 hm h5 hml]
      simp [readReqNs, nsTarget]
    · rw [updateB_ok env c d gv ⟨false⟩ h1 h2 h3 hm h5 h6 h7]
      simp [updReqNsB, nsTarget]
    · rw [updateA_ok env c d gv ⟨false⟩ h1 h2 h3 hm h5 h6 h7]
      simp [updReqNsA, nsTarget]

/-- Claim C6 witness: a concrete read with empty namespace against a
namespace-scoped mapping targets "default". -/
theorem claim_C6_namespace_defaulting_witness :
    readReqNs (VariantB.resourceKubernetesLabelsRead (envHappy true)
        ⟨[("a", "1")], [], []⟩
        ⟨"id1", "v1", "ConfigMap", "x", "", [("a", "1")], [("a", "1")], false⟩).2 =
      some "default" :=
  ((claim_C6_namespace_defaulting (envHappy true)
    ⟨[("a", "1")], [], []⟩
    ⟨"id1", "v1", "ConfigMap", "x", "", [("a", "1")], [("a", "1")], false⟩
    ⟨"", "v1"⟩ none rfl rfl rfl rfl rfl rfl rfl).1 rfl rfl).1

/-- Claim C7 counterexample: the round trip fails as stated for variant B when the
remote map has drifted from the previously-applied map while still carrying
no unmanaged key: with previously-applied {a:1}, remote {a:2} (key a is
managed) and desired {a:1,b:2}, the update patch only adds b, and the
re-read stores {a:2,b:2}, not {a:1,b:2}. -/
theorem claim_C7_counterexample_drifted_value :
    ((keysL [("a", "2")]).all (fun k => (keysL [("a", "1")]).contains k) = true) ∧
    (updStoredB (VariantB.resourceKubernetesLabelsUpdate (envHappy true)
        ⟨[("a", "2")], [], []⟩
        ⟨"id1", "v1", "ConfigMap", "x", "", [("a", "1"), ("b", "2")], [("a", "1")],
          false⟩).2.2 =
      [("a", "2"), ("b", "2")]) ∧
    (updOpsB (VariantB.resourceKubernetesLabelsUpdate (envHappy true)
        ⟨[("a", "2")], [], []⟩
        ⟨"id1", "v1", "ConfigMap", "x", "", [("a", "1"), ("b", "2")], [("a", "1")],
          false⟩).2.2 =
      [PatchOp.add "/metadata/labels/b" "2"]) ∧
    (lookupL [("a", "2"), ("b", "2")] "a" = some "2") ∧
    (lookupL [("a", "1"), ("b", "2")] "a" = some "1") :=
  ⟨rfl, rfl, rfl, rfl, rfl⟩

/-- Claim C7 as amended: with desired labels {a:1,b:2}, a successful update ends
with a stored map equal to {a:1,b:2} pointwise — unconditionally in variant A
(the re-read strips whatever unmanaged keys the merge kept), and in variant B
when the remote label map equals the previously-applied map. -/
theorem claim_C7_amended_round_trip (c : RemoteObject) (d : ResourceData) (k : String)
    (hid : ¬ d.id = "") (hlabels : d.labels = [("a", "1"), ("b", "2")]) :
    (lookupL (updStoredA (VariantA.resourceKubernetesLabelsUpdate
        (envHappy true) c d).2.2) k = lookupL [("a", "1"), ("b", "2")] k) ∧
    (c.labels = d.oldLabels → (keysL d.oldLabels).Nodup →
      lookupL (updStoredB (VariantB.resourceKubernetesLabelsUpdate
        (envHappy true) c d).2.2) k = lookupL [("a", "1"), ("b", "2")] k) := by
  constructor
  · rw [updateA_ok (envHappy true) c d ⟨"", d.apiVersion⟩ ⟨true⟩ rfl rfl rfl rfl rfl rfl rfl]
    show lookupL (storedA c d) k = _
    rw [storedA_lookup c d hid k, hlabels]
  · intro hBrem hO
    rw [updateB_ok (envHappy true) c d ⟨"", d.apiVersion⟩ ⟨true⟩ rfl rfl rfl rfl rfl rfl rfl]
    show lookupL (patchedB c d).labels k = _
    unfold patchedB
    show lookupL (applyPatchOps "/metadata/labels/" c.labels
        (diffStringMap "/metadata/labels/" d.oldLabels
          (if d.id = "" then [] else d.labels))) k = _
    rw [if_neg hid, hBrem, hlabels]
    exact diffStringMap_apply "/metadata/labels/" d.oldLabels [("a", "1"), ("b", "2")]
      hO (by decide) k

/-- Claim C7 witness: concrete round trips — variant B with the remote
matching the previously-applied map, and variant A additionally on a remote
with a drifted value and an unmanaged key, where no side condition is
needed. -/
theorem claim_C7_amended_round_trip_witness :
    (lookupL (updStoredA (VariantA.resourceKubernetesLabelsUpdate (envHappy true)
        ⟨[("a", "1")], [], []⟩
        ⟨"id1", "v1", "ConfigMap", "x", "", [("a", "1"), ("b", "2")], [("a", "1")],
          false⟩).2.2) "b" = some "2") ∧
    (lookupL (updStoredB (VariantB.resourceKubernetesLabelsUpdate (envHappy true)
        ⟨[("a", "1")], [], []⟩
        ⟨"id1", "v1", "ConfigMap", "x", "", [("a", "1"), ("b", "2")], [("a", "1")],
          false⟩).2.2) "b" = some "2") ∧
    (lookupL (updStoredA (VariantA.resourceKubernetesLabelsUpdate (envHappy true)
        ⟨[("a", "9"), ("env", "prod")], [], ["a"]⟩
        ⟨"id1", "v1", "ConfigMap", "x", "", [("a", "1"), ("b", "2")], [("a", "1")],
          false⟩).2.2) "a" = some "1") := by
  have h := claim_C7_amended_round_trip
    ⟨[("a", "1")], [], []⟩
    ⟨"id1", "v1", "ConfigMap", "x", "", [("a", "1"), ("b", "2")], [("a", "1")], false⟩
    "b" (by decide) rfl
  have h2 := claim_C7_amended_round_trip
    ⟨[("a", "9"), ("env", "prod")], [], ["a"]⟩
    ⟨"id1", "v1", "ConfigMap", "x", "", [("a", "1"), ("b", "2")], [("a", "1")], false⟩
    "a" (by decide) rfl
  exact ⟨h.1, h.2 rfl (by decide), h2.1⟩
